import Mathlib

/-!
# Verification of the `extract-job-details` Netlify function

Shallow embedding of the repository's serverless endpoint
(`src/netlify/functions/extract-job-details.js`, plus the variants found in
`src/unnamed/part_000` and `src/unnamed/part_001`).

Modelling conventions:
* JS strings are `String` at the interfaces and `List Char` where character-level
  reasoning is needed; only ASCII whitespace is modelled (`isJsWs`), matching the
  inputs that occur here.
* The hosted model call (`replicate.run`) and the host primitives `JSON.parse`
  and `URLSearchParams` are external capabilities; they are passed in as oracle
  parameters, so every theorem quantifies over their behaviour.
* `JSON.parse` results are restricted to objects whose relevant fields are
  atomic JSON values (`JsValue`); the validator only ever inspects those fields.
* Promises/await are sequentialised; `setTimeout` backoff waits are recorded in
  a trace (`LoopTrace.waits`, in milliseconds) instead of actually sleeping.
* HTTP responses are kept structurally (statusCode, headers, body shape) rather
  than as serialized JSON text; `JSON.stringify(undefined)` (which yields an
  undefined body in JS) is the dedicated body shape `RespBody.undefinedBody`.
-/

/-- ASCII whitespace, as matched by the JS `\s` class and `String.prototype.trim`
for the ASCII range (the code never produces non-ASCII whitespace). -/
def isJsWs (c : Char) : Bool :=
  c == ' ' || c == '\t' || c == '\n' || c == '\r' || c == '\x0b' || c == '\x0c'

/-- `String.prototype.trim` on character lists: drop leading and trailing
whitespace. -/
def jsTrimList (l : List Char) : List Char :=
  ((l.dropWhile isJsWs).reverse.dropWhile isJsWs).reverse

/-- `String.prototype.trim` at the `String` interface. -/
def jsTrimStr (s : String) : String :=
  ⟨jsTrimList s.data⟩

/-- `haystack.includes(pat)` of JS: does `pat` occur as a contiguous substring? -/
def hasSub (pat : List Char) : List Char → Bool
  | [] => pat.isEmpty
  | c :: rest => pat.isPrefixOf (c :: rest) || hasSub pat rest

/-- Does `pat` occur starting at some position of `a`, where the text continues
with `r` after `a` (so occurrences may straddle the `a`/`r` boundary)? -/
def hasSub2 (pat : List Char) : List Char → List Char → Bool
  | [], _ => false
  | c :: rest, r => pat.isPrefixOf (c :: (rest ++ r)) || hasSub2 pat rest r

/-- `s.includes(sub)` at the `String` interface (case-sensitive substring
containment, as used for the content-type dispatch). -/
def jsIncludes (s sub : String) : Bool :=
  hasSub sub.data s.data

/-- `String.prototype.split(sep)` with a non-empty plain-string separator,
fuelled so that it is structurally recursive (fuel `≥` input length suffices;
`splitOnSub` supplies it). `acc` holds the current chunk reversed. -/
def splitOnSubAux (sep : List Char) : Nat → List Char → List Char → List (List Char)
  | _, acc, [] => [acc.reverse]
  | 0, acc, l => [acc.reverse ++ l]
  | fuel + 1, acc, c :: rest =>
      if sep.isPrefixOf (c :: rest) then
        acc.reverse :: splitOnSubAux sep fuel [] (List.drop (sep.length - 1) rest)
      else
        splitOnSubAux sep fuel (c :: acc) rest

/-- `l.split(sep)` of JS for a non-empty separator. -/
def splitOnSub (sep l : List Char) : List (List Char) :=
  splitOnSubAux sep l.length [] l

/-! ## JSON values and the response schema validator -/

/-- Atomic JS values as they appear in the fields of a parsed model response
(and in the handler's `job_title`/`job_description` variables). `vUndefined`
stands for JS `undefined` (an absent object key or unassigned variable). -/
inductive JsValue
  | vNull
  | vUndefined
  | vStr (s : String)
  | vNum (n : Int)
  | vBool (b : Bool)
  deriving DecidableEq

/-- JS truthiness of a `JsValue` (`""`, `0`, `false`, `null`, `undefined` are
falsy). -/
def truthy : JsValue → Bool
  | .vNull => false
  | .vUndefined => false
  | .vStr s => !(s == "")
  | .vNum n => !(n == 0)
  | .vBool b => b

/-- `typeof v === 'string'`. -/
def isStr : JsValue → Bool
  | .vStr _ => true
  | _ => false

/-- The object produced by `JSON.parse` of a model response, restricted to the
fields the validator reads (`jsonResult.job_title` etc.; a key missing from the
parsed object reads as `vUndefined`). -/
structure JsObj where
  job_title : JsValue
  city : JsValue
  work_arrangement : JsValue
  company : JsValue
  experience : JsValue
  deriving DecidableEq

/-- The literal array `['remote', 'hybrid', 'on-site']`. -/
def workArrangements : List String := ["remote", "hybrid", "on-site"]

/-- The literal array
`['Entry (0-2 Years)', 'Mid (3-5 Years)', 'Senior (6-8 Years)', 'Lead (8+ Years)']`. -/
def experienceLabels : List String :=
  ["Entry (0-2 Years)", "Mid (3-5 Years)", "Senior (6-8 Years)", "Lead (8+ Years)"]

/-- The validation conjunction of `extract-job-details.js` (lines 64-67):
`job_title` truthy, `city` null-or-string, `work_arrangement` null or one of the
three lowercase literals, `experience` null or one of the four labels.
`Array.prototype.includes` uses `===`, so only a string field can match. -/
def validateResult (j : JsObj) : Bool :=
  truthy j.job_title &&
  (j.city == JsValue.vNull || isStr j.city) &&
  (j.work_arrangement == JsValue.vNull ||
    workArrangements.any (fun w => j.work_arrangement == JsValue.vStr w)) &&
  (j.experience == JsValue.vNull ||
    experienceLabels.any (fun x => j.experience == JsValue.vStr x))

/-- The validation conjunction of `src/unnamed/part_001` (lines 80-84), which
additionally requires `company` to be null or a string. -/
def validateResultB (j : JsObj) : Bool :=
  truthy j.job_title &&
  (j.city == JsValue.vNull || isStr j.city) &&
  (j.work_arrangement == JsValue.vNull ||
    workArrangements.any (fun w => j.work_arrangement == JsValue.vStr w)) &&
  (j.company == JsValue.vNull || isStr j.company) &&
  (j.experience == JsValue.vNull ||
    experienceLabels.any (fun x => j.experience == JsValue.vStr x))

/-! ## Markdown code-fence stripping (src/unnamed/part_001, lines 66-73) -/

/-- The literal prefix checked by `responseText.startsWith('```json')`. -/
def fenceJson : List Char := "```json".data

/-- The literal prefix checked by `responseText.startsWith('```')`. -/
def fence3 : List Char := "```".data

/-- `responseText.replace(/\s*```$/, '')`: if the text ends in three backticks,
remove them together with the maximal run of whitespace immediately before them
(the regex is anchored at the end, so it only fires on a trailing fence). -/
def stripTrailingFence (l : List Char) : List Char :=
  if fence3.isSuffixOf l then
    ((l.take (l.length - 3)).reverse.dropWhile isJsWs).reverse
  else l

/-- `responseText.replace(/^```json\s*/, '')` (given that the text starts with
the fence): drop the seven fence characters and the following whitespace run. -/
def stripLeadingFenceJson (l : List Char) : List Char :=
  (l.drop 7).dropWhile isJsWs

/-- `responseText.replace(/^```\s*/, '')` for a bare fence. -/
def stripLeadingFence3 (l : List Char) : List Char :=
  (l.drop 3).dropWhile isJsWs

/-- The fence-stripping conditional (lines 66-70): a leading ```` ```json ````
takes the first branch, a bare leading ```` ``` ```` the second, anything else
is left alone; each branch also removes a trailing fence. -/
def stripFences (r0 : List Char) : List Char :=
  if fenceJson.isPrefixOf r0 then stripTrailingFence (stripLeadingFenceJson r0)
  else if fence3.isPrefixOf r0 then stripTrailingFence (stripLeadingFence3 r0)
  else r0

/-- The whole response-cleaning step of `src/unnamed/part_001` (lines 63-73):
trim, strip a leading ```` ```json ```` or ```` ``` ```` fence (and in that case
a trailing fence), then trim again. -/
def cleanResponseList (t : List Char) : List Char :=
  jsTrimList (stripFences (jsTrimList t))

/-- `cleanResponseList` at the `String` interface. -/
def cleanResponseStr (s : String) : String :=
  ⟨cleanResponseList s.data⟩

/-! ## The retry loop -/

/-- Outcome of one `replicate.run` call: either the promise rejects
(`failure`, carrying `error.message`), or it resolves and `output.join('')`
yields the given text. -/
inductive ModelStep
  | failure (msg : String)
  | output (text : String)

/-- How one run of the retry function ended. -/
inductive RetryResult
  | ok (j : JsObj)
  | thrown (msg : String)
  | degraded (jobTitle : String) (error : String)
  | undef
  deriving DecidableEq

/-- Observable trace of one run of the retry loop: the final result, the
attempt numbers at which the model was invoked, and the backoff waits
(milliseconds) that were performed, in order. -/
structure LoopTrace where
  result : RetryResult
  attempts : List Nat
  waits : List Nat
  deriving DecidableEq

/-- The terminal error message thrown by the throw-variant on the last
parse failure (line 73 of `extract-job-details.js`). -/
def parseFailMsg (maxRetries : Nat) (responseText : String) : String :=
  s!"Failed to extract valid JSON after {maxRetries} attempts. Last response: {responseText}"

/-- Record one non-returning iteration: the attempt number is noted, the
`await new Promise(resolve => setTimeout(resolve, 1000 * attempt))` backoff is
recorded, and the loop continues with the trace `t` of the remaining
iterations. -/
def continueWith (attempt : Nat) (t : LoopTrace) : LoopTrace :=
  ⟨t.result, attempt :: t.attempts, 1000 * attempt :: t.waits⟩

/-- The retry loop of `extract-job-details.js` (lines 49-85), fuelled by the
number of remaining iterations: fuel `n + 1` at attempt number `attempt` means
`attempt` runs now and up to `n` further attempts remain, so `n = 0` is exactly
the JS test `attempt === maxRetries`.  Each iteration: call the model; on a
rejection at the last attempt rethrow, on a parse failure at the last attempt
throw the terminal error; on a schema-valid parse return immediately; in every
other case perform the `1000 * attempt` ms backoff wait and continue (note that
a schema-invalid parse waits even on the last attempt and falls off the loop,
yielding `undef`). The model output is only trimmed, never fence-stripped. -/
def extractLoopThrow (parse : String → Option JsObj) (model : Nat → ModelStep) :
    Nat → Nat → LoopTrace
  | 0, _ => ⟨.undef, [], []⟩
  | n + 1, attempt =>
      match model attempt with
      | .failure msg =>
          if n = 0 then ⟨.thrown msg, [attempt], []⟩
          else continueWith attempt (extractLoopThrow parse model n (attempt + 1))
      | .output raw =>
          match parse (jsTrimStr raw) with
          | some j =>
              if validateResult j then ⟨.ok j, [attempt], []⟩
              else continueWith attempt (extractLoopThrow parse model n (attempt + 1))
          | none =>
              if n = 0 then ⟨.thrown (parseFailMsg attempt (jsTrimStr raw)), [attempt], []⟩
              else continueWith attempt (extractLoopThrow parse model n (attempt + 1))

/-- `extractJobDetailsWithRetry(jobTitle, jobDescription, maxRetries)` of
`extract-job-details.js`; the title/description only flow into the prompt,
which is absorbed into the `model` oracle. -/
def extractJobDetailsWithRetry (parse : String → Option JsObj) (model : Nat → ModelStep)
    (jobTitle jobDescription : String) (maxRetries : Nat) : LoopTrace :=
  extractLoopThrow parse model maxRetries 1

/-- The call with the JS default `maxRetries = 3`, as performed by the handler. -/
def extractJobDetailsWithRetryDefault (parse : String → Option JsObj)
    (model : Nat → ModelStep) (jobTitle jobDescription : String) : LoopTrace :=
  extractJobDetailsWithRetry parse model jobTitle jobDescription 3

/-- The retry loop of `src/unnamed/part_001` (lines 55-121): same skeleton, but
the response is fence-stripped (`cleanResponseStr`) before parsing, validation
uses `validateResultB`, and on the last attempt a parse failure or call failure
returns the degraded fallback record (`job_title` echoed from the input, the
other fields null, plus an `error` message) instead of throwing. -/
def extractLoopFallback (parse : String → Option JsObj) (model : Nat → ModelStep)
    (jobTitle : String) : Nat → Nat → LoopTrace
  | 0, _ => ⟨.undef, [], []⟩
  | n + 1, attempt =>
      match model attempt with
      | .failure msg =>
          if n = 0 then ⟨.degraded jobTitle s!"AI processing failed: {msg}", [attempt], []⟩
          else continueWith attempt (extractLoopFallback parse model jobTitle n (attempt + 1))
      | .output raw =>
          match parse (cleanResponseStr raw) with
          | some j =>
              if validateResultB j then ⟨.ok j, [attempt], []⟩
              else continueWith attempt (extractLoopFallback parse model jobTitle n (attempt + 1))
          | none =>
              if n = 0 then
                ⟨.degraded jobTitle "Failed to parse AI response as JSON", [attempt], []⟩
              else continueWith attempt (extractLoopFallback parse model jobTitle n (attempt + 1))

/-- `extractJobDetailsWithRetry` of `src/unnamed/part_001`. -/
def extractJobDetailsWithRetryB (parse : String → Option JsObj) (model : Nat → ModelStep)
    (jobTitle jobDescription : String) (maxRetries : Nat) : LoopTrace :=
  extractLoopFallback parse model jobTitle maxRetries 1

/-! ## Manual multipart parsing (handler lines 145-175)

The handler matches each body part against the JS regex
`/name="FIELD"\s*\r?\n\r?\n(.*?)(?:\r?\n|$)/s` and takes `match[1].trim()`.
The functions below embed the regex's backtracking semantics:
scan left to right for the literal `name="FIELD"`; after it, the greedy `\s*`
consumes as much whitespace as possible and backs off until two line breaks
(`\r?\n\r?\n`) match; the lazy capture group then takes characters up to the
first following line break or the end of the part. -/

/-- One `\r?\n`: consume a line break at the head, preferring `\r\n`. -/
def lineBreak (l : List Char) : Option (List Char) :=
  if l.head? == some '\n' then some l.tail
  else if l.head? == some '\r' && l.tail.head? == some '\n' then some l.tail.tail
  else none

/-- `\r?\n\r?\n`: a blank line (two consecutive line breaks). -/
def blankLine (l : List Char) : Option (List Char) :=
  (lineBreak l).bind lineBreak

/-- Backtracking for `\s*` followed by `\r?\n\r?\n`: try consuming `k`
whitespace characters, then `k - 1`, ..., down to `0`, and return the rest of
the part after the first blank line that matches. -/
def tryFromWs : Nat → List Char → Option (List Char)
  | 0, l => blankLine l
  | k + 1, l =>
      match blankLine (l.drop (k + 1)) with
      | some rest => some rest
      | none => tryFromWs k l

/-- Match `\s*\r?\n\r?\n` with the greedy-then-backtrack semantics of the JS
regex engine, returning the text after the blank line. -/
def matchBlank (l : List Char) : Option (List Char) :=
  tryFromWs (l.takeWhile isJsWs).length l

/-- The lazy capture `(.*?)(?:\r?\n|$)` (with the `s` flag): characters up to
the first line break, or the whole rest if none occurs. A lone `\r` not
followed by `\n` does not terminate the capture. -/
def captureLine : List Char → List Char
  | [] => []
  | c :: rest =>
      if c == '\n' then []
      else if c == '\r' && rest.head? == some '\n' then []
      else c :: captureLine rest

/-- Leftmost match of `/name="F"\s*\r?\n\r?\n(.*?)(?:\r?\n|$)/s` over a part,
where `pat` is the literal `name="F"`; returns the capture group. If the
literal matches at a position but no blank line follows, the scan resumes at
the next position, as the regex engine does. -/
def matchFieldAux (pat : List Char) : List Char → Option (List Char)
  | [] => none
  | c :: rest =>
      if pat.isPrefixOf (c :: rest) then
        match matchBlank (List.drop pat.length (c :: rest)) with
        | some afterBlank => some (captureLine afterBlank)
        | none => matchFieldAux pat rest
      else matchFieldAux pat rest

/-- The literal `name="F"` searched for field `F`. -/
def namePat (fname : String) : List Char :=
  ("name=\"" ++ fname ++ "\"").data

/-- Processing of a single part for one field: the JS
`if (part.includes('name="F"')) { const match = part.match(...); if (match) x = match[1].trim(); }`.
`none` means the variable is left unchanged. -/
def partField (pat : List Char) (part : List Char) : Option (List Char) :=
  if hasSub pat part then
    match matchFieldAux pat part with
    | some cap => some (jsTrimList cap)
    | none => none
  else none

/-- The `for` loop over the split parts: a later matching part overwrites an
earlier assignment. -/
def foldParts (pat : List Char) (parts : List (List Char)) : Option (List Char) :=
  parts.foldl (fun acc p => match partField pat p with
    | some v => some v
    | none => acc) none

/-- `contentType.split('boundary=')[1]` followed by the JS truthiness test
`if (boundary)`: `none` covers both an absent element (no `boundary=` in the
content type) and an empty boundary string, in which cases the code skips the
manual parse and leaves both fields unassigned. -/
def boundaryOf (ct : List Char) : Option (List Char) :=
  match (splitOnSub ("boundary=".data) ct).get? 1 with
  | some b => if b.isEmpty then none else some b
  | none => none

/-- Split the body on `--${boundary}` and extract both fields from the parts
(lines 152-173 of the handler). -/
def multipartExtract (boundary : List Char) (body : List Char) :
    Option (List Char) × Option (List Char) :=
  let parts := splitOnSub ('-' :: '-' :: boundary) body
  (foldParts (namePat "job_title") parts, foldParts (namePat "job_description") parts)

/-- The whole string-body branch of the multipart case: extract the boundary
from the content type, then manually split and pattern-match; with no usable
boundary both fields stay unassigned. -/
def multipartStringExtract (ct : List Char) (body : List Char) :
    Option (List Char) × Option (List Char) :=
  match boundaryOf ct with
  | some b => multipartExtract b body
  | none => (none, none)

/-! ## The HTTP handler (lines 89-250) -/

/-- The request headers, restricted to the two keys the handler reads:
`event.headers['content-type']` and `event.headers['Content-Type']`
(`none` = key absent, i.e. `undefined`). -/
structure HeadersMap where
  contentTypeLower : Option String
  contentTypeUpper : Option String
  deriving DecidableEq

/-- `event.queryStringParameters` (when present). -/
structure QueryMap where
  job_title : Option String
  job_description : Option String
  deriving DecidableEq

/-- `event.body`: a raw string, an already-parsed object (of which the handler
reads only the two fields), or `null`/`undefined`. -/
inductive JsBody
  | str (s : String)
  | obj (job_title : Option String) (job_description : Option String)
  | nullv
  deriving DecidableEq

/-- An incoming invocation event. -/
structure Event where
  httpMethod : String
  headers : HeadersMap
  body : JsBody
  queryStringParameters : Option QueryMap

/-- `event.headers['content-type'] || event.headers['Content-Type'] || ''`:
JS `||` falls through on the falsy values `undefined` and `''`. -/
def contentTypeOf (h : HeadersMap) : String :=
  match h.contentTypeLower with
  | some s =>
      if s == "" then (match h.contentTypeUpper with | some t => t | none => "") else s
  | none => match h.contentTypeUpper with | some t => t | none => ""

/-- The object produced by `JSON.parse` of a request body, restricted to the
two fields the handler reads (an absent key reads as `undefined`). -/
structure ParsedBody where
  job_title : JsValue
  job_description : JsValue

/-- `JSON.parse(event.body)` followed by the two field accesses, as one
fallible step.  For a string body this is the `jsonParse` oracle (whose
`.error` case covers both a `SyntaxError` from `JSON.parse` and the `TypeError`
raised by the field access when the parse result is `null`); a non-string body
is coerced by `JSON.parse` to a string first: an object coerces to
`"[object Object]"` (a `SyntaxError`), and `null` parses to `null`, after which
the field access throws. -/
def parseBodyJson (jsonParse : String → Except String ParsedBody) :
    JsBody → Except String ParsedBody
  | .str s => jsonParse s
  | .obj _ _ => .error "Unexpected token o in JSON at position 1"
  | .nullv => .error "Cannot read properties of null (reading 'job_title')"

/-- `params.get(k)` returns the value or `null`. -/
def optToNullable : Option String → JsValue
  | some s => .vStr s
  | none => .vNull

/-- An absent match/key leaves the variable `undefined`. -/
def optToUndef : Option String → JsValue
  | some s => .vStr s
  | none => .vUndefined

/-- `optToUndef` after the multipart extraction (values are char lists). -/
def optListToUndef : Option (List Char) → JsValue
  | some l => .vStr ⟨l⟩
  | none => .vUndefined

/-- Result of the body-parsing `if`/`else if` chain: either both variables
(possibly still `undefined`), an early `400` return from the default branch,
or an exception that will be caught by the outer `try` (JSON branch only). -/
inductive NormStep
  | fields (jt jd : JsValue)
  | earlyInvalid
  | thrownNorm (msg : String)
  deriving DecidableEq

/-- The JSON branch (lines 122-126): parse the body and read the two fields;
a thrown parse error propagates to the outer `try`. -/
def jsonNormStep (jsonParse : String → Except String ParsedBody) (b : JsBody) : NormStep :=
  match parseBodyJson jsonParse b with
  | .ok pb => .fields pb.job_title pb.job_description
  | .error m => .thrownNorm m

/-- The content-type dispatch and body parsing of the handler (lines 120-194).
Dispatch is by case-sensitive `includes` on the computed content type, in the
order JSON, URL-encoded, multipart, default-JSON.  `urlParse` is the
`URLSearchParams` oracle for string bodies; for an object body
`URLSearchParams` treats the object as a record of entries, and for `null` it
yields no entries (every `get` returns `null`). -/
def normalizeBody (jsonParse : String → Except String ParsedBody)
    (urlParse : String → Option String × Option String) (e : Event) : NormStep :=
  let ct := contentTypeOf e.headers
  if jsIncludes ct "application/json" then
    jsonNormStep jsonParse e.body
  else if jsIncludes ct "application/x-www-form-urlencoded" then
    match e.body with
    | .str s =>
        let p := urlParse s
        .fields (optToNullable p.1) (optToNullable p.2)
    | .obj t d => .fields (optToNullable t) (optToNullable d)
    | .nullv => .fields (optToNullable none) (optToNullable none)
  else if jsIncludes ct "multipart/form-data" then
    match e.body with
    | .obj t d => .fields (optToUndef t) (optToUndef d)
    | .str s =>
        let p := multipartStringExtract ct.data s.data
        .fields (optListToUndef p.1) (optListToUndef p.2)
    | .nullv => .fields .vUndefined .vUndefined
  else
    match parseBodyJson jsonParse e.body with
    | .ok pb => .fields pb.job_title pb.job_description
    | .error _ => .earlyInvalid

/-- `a || b` on JS values. -/
def jsOr (a b : JsValue) : JsValue :=
  if truthy a then a else b

/-- The query-string fallback (lines 197-201): only consulted when a field is
still falsy and `event.queryStringParameters` is present. -/
def applyQueryFallback (e : Event) (jt jd : JsValue) : JsValue × JsValue :=
  if (!truthy jt || !truthy jd) then
    match e.queryStringParameters with
    | some q => (jsOr jt (optToUndef q.job_title), jsOr jd (optToUndef q.job_description))
    | none => (jt, jd)
  else (jt, jd)

/-- `x || null` in the `received` echo of the 400 response. -/
def jsOrNull (v : JsValue) : JsValue :=
  if truthy v then v else .vNull

/-- `typeof event.body`. -/
def typeofBody : JsBody → String
  | .str _ => "string"
  | .obj _ _ => "object"
  | .nullv => "object"

/-- The `debug` object of the missing-fields 400 response (lines 221-226). -/
structure DebugInfo where
  contentType : Option String
  bodyType : String
  bodyPreview : String
  queryParams : Option QueryMap
  deriving DecidableEq

/-- Build the `debug` object from the event. -/
def mkDebug (e : Event) : DebugInfo :=
  ⟨e.headers.contentTypeLower, typeofBody e.body,
    (match e.body with | .str s => s.take 200 | _ => "Not a string"),
    e.queryStringParameters⟩

/-- The degraded fallback record of `src/unnamed/part_001` (all non-title
fields are `null`). -/
structure DegradedRecord where
  job_title : String
  city : JsValue
  work_arrangement : JsValue
  company : JsValue
  experience : JsValue
  error : String
  deriving DecidableEq

/-- The structural shape of a response body before `JSON.stringify`.
`undefinedBody` is `JSON.stringify(undefined)`, which is JS `undefined`
(no body text at all). -/
inductive RespBody
  | empty
  | errorOnly (error : String)
  | errorDetails (error details : String)
  | missingFields (error : String) (receivedTitle receivedDesc : JsValue) (debug : DebugInfo)
  | result (j : JsObj)
  | degradedResult (d : DegradedRecord)
  | undefinedBody
  deriving DecidableEq

/-- An HTTP response. -/
structure Response where
  statusCode : Nat
  headers : List (String × String)
  body : RespBody
  deriving DecidableEq

/-- The constant CORS/content-type header object (lines 91-96). -/
def corsHeaders : List (String × String) :=
  [("Access-Control-Allow-Origin", "*"),
   ("Access-Control-Allow-Headers", "Content-Type"),
   ("Access-Control-Allow-Methods", "POST, OPTIONS"),
   ("Content-Type", "application/json")]

/-- Template-literal coercion of the value passed into the prompt. -/
def jsCoerceString : JsValue → String
  | .vStr s => s
  | .vNull => "null"
  | .vUndefined => "undefined"
  | .vNum n => toString n
  | .vBool b => toString b

/-- The tail of the handler once both fields validated truthy: run the retry
loop (with the default `maxRetries = 3`) on exactly the obtained title and
description and serialize its outcome; a throw from the loop is caught by the
outer `try` and becomes the 500 response. -/
def extractRespond (parse : String → Option JsObj) (model : Nat → ModelStep)
    (jobTitle jobDescription : String) : Response :=
  match (extractJobDetailsWithRetryDefault parse model jobTitle jobDescription).result with
  | .ok j => ⟨200, corsHeaders, .result j⟩
  | .degraded t err => ⟨200, corsHeaders,
      .degradedResult ⟨t, .vNull, .vNull, .vNull, .vNull, err⟩⟩
  | .thrown m => ⟨500, corsHeaders, .errorDetails "Failed to extract job details" m⟩
  | .undef => ⟨200, corsHeaders, .undefinedBody⟩

/-- The Netlify handler of `extract-job-details.js` (lines 89-250). -/
def handler (jsonParse : String → Except String ParsedBody)
    (urlParse : String → Option String × Option String)
    (parse : String → Option JsObj) (model : Nat → ModelStep) (e : Event) : Response :=
  if e.httpMethod = "OPTIONS" then ⟨200, corsHeaders, .empty⟩
  else if e.httpMethod ≠ "POST" then ⟨405, corsHeaders, .errorOnly "Method not allowed"⟩
  else
    match normalizeBody jsonParse urlParse e with
    | .thrownNorm m => ⟨500, corsHeaders, .errorDetails "Failed to extract job details" m⟩
    | .earlyInvalid => ⟨400, corsHeaders,
        .errorOnly "Invalid request format. Use JSON or URL-encoded form data."⟩
    | .fields jt0 jd0 =>
        let p := applyQueryFallback e jt0 jd0
        if !truthy p.1 || !truthy p.2 then
          ⟨400, corsHeaders,
            .missingFields "Missing required fields: job_title and job_description"
              (jsOrNull p.1) (jsOrNull p.2) (mkDebug e)⟩
        else
          extractRespond parse model (jsCoerceString p.1) (jsCoerceString p.2)

/-! ## Helper lemmas -/

theorem length_dropWhile_le {α} (p : α → Bool) :
    ∀ l : List α, (List.dropWhile p l).length ≤ l.length := by
  intro l
  induction l with
  | nil => simp
  | cons c l ih =>
      rw [List.dropWhile_cons]
      by_cases h : p c = true
      · rw [if_pos h]; exact Nat.le_succ_of_le ih
      · rw [if_neg h]

theorem dropWhile_fix_head {p : Char → Bool} {c : Char} {l : List Char}
    (h : List.dropWhile p (c :: l) = c :: l) : p c = false := by
  cases hp : p c with
  | false => rfl
  | true =>
      rw [List.dropWhile_cons, if_pos hp] at h
      have h1 := congrArg List.length h
      have h2 := length_dropWhile_le p l
      simp at h1
      omega

/-- The attempt numbers `[a, a+1, ..., a+n-1]` of `n` consecutive loop
iterations starting at attempt `a`. -/
def attemptNums (a : Nat) : Nat → List Nat
  | 0 => []
  | n + 1 => a :: attemptNums (a + 1) n

theorem attemptNums_length : ∀ n a, (attemptNums a n).length = n := by
  intro n
  induction n with
  | zero => intro a; rfl
  | succ n ih => intro a; simp [attemptNums, ih]

theorem attemptNums_mem_last : ∀ n a, (a + n) ∈ attemptNums a (n + 1) := by
  intro n
  induction n with
  | zero => intro a; simp [attemptNums]
  | succ n ih =>
      intro a
      have h := ih (a + 1)
      have e : a + 1 + n = a + (n + 1) := by omega
      rw [e] at h
      rw [attemptNums]
      exact List.mem_cons_of_mem _ h

/-! ## Loop invariants -/

theorem loopThrow_attempts_le (parse : String → Option JsObj) (model : Nat → ModelStep) :
    ∀ n a, (extractLoopThrow parse model n a).attempts.length ≤ n := by
  intro n
  induction n with
  | zero => intro a; simp [extractLoopThrow]
  | succ n ih =>
      intro a
      rw [extractLoopThrow]
      cases model a with
      | failure msg =>
          by_cases h : n = 0
          · simp [h]
          · simp [h, continueWith]
            exact ih (a + 1)
      | output raw =>
          cases hp : parse (jsTrimStr raw) with
          | some j =>
              by_cases hv : validateResult j = true
              · simp [hp, hv]
              · simp [hp, hv, continueWith]
                exact ih (a + 1)
          | none =>
              by_cases h : n = 0
              · simp [hp, h]
              · simp [hp, h, continueWith]
                exact ih (a + 1)

theorem loopFallback_attempts_le (parse : String → Option JsObj) (model : Nat → ModelStep)
    (jobTitle : String) :
    ∀ n a, (extractLoopFallback parse model jobTitle n a).attempts.length ≤ n := by
  intro n
  induction n with
  | zero => intro a; simp [extractLoopFallback]
  | succ n ih =>
      intro a
      rw [extractLoopFallback]
      cases model a with
      | failure msg =>
          by_cases h : n = 0
          · simp [h]
          · simp [h, continueWith]
            exact ih (a + 1)
      | output raw =>
          cases hp : parse (cleanResponseStr raw) with
          | some j =>
              by_cases hv : validateResultB j = true
              · simp [hp, hv]
              · simp [hp, hv, continueWith]
                exact ih (a + 1)
          | none =>
              by_cases h : n = 0
              · simp [hp, h]
              · simp [hp, h, continueWith]
                exact ih (a + 1)

theorem loopThrow_ok_valid (parse : String → Option JsObj) (model : Nat → ModelStep) :
    ∀ n a j, (extractLoopThrow parse model n a).result = RetryResult.ok j →
      validateResult j = true := by
  intro n
  induction n with
  | zero => intro a j h; simp [extractLoopThrow] at h
  | succ n ih =>
      intro a j h
      rw [extractLoopThrow] at h
      cases hm : model a with
      | failure msg =>
          rw [hm] at h
          by_cases hn : n = 0
          · simp [hn] at h
          · simp [hn, continueWith] at h
            exact ih (a + 1) j h
      | output raw =>
          rw [hm] at h
          cases hp : parse (jsTrimStr raw) with
          | some j0 =>
              by_cases hv : validateResult j0 = true
              · simp [hp, hv] at h
                rw [← h]
                exact hv
              · simp [hp, hv, continueWith] at h
                exact ih (a + 1) j h
          | none =>
              by_cases hn : n = 0
              · simp [hp, hn] at h
              · simp [hp, hn, continueWith] at h
                exact ih (a + 1) j h

theorem loopFallback_ok_valid (parse : String → Option JsObj) (model : Nat → ModelStep)
    (jobTitle : String) :
    ∀ n a j, (extractLoopFallback parse model jobTitle n a).result = RetryResult.ok j →
      validateResultB j = true := by
  intro n
  induction n with
  | zero => intro a j h; simp [extractLoopFallback] at h
  | succ n ih =>
      intro a j h
      rw [extractLoopFallback] at h
      cases hm : model a with
      | failure msg =>
          rw [hm] at h
          by_cases hn : n = 0
          · simp [hn] at h
          · simp [hn, continueWith] at h
            exact ih (a + 1) j h
      | output raw =>
          rw [hm] at h
          cases hp : parse (cleanResponseStr raw) with
          | some j0 =>
              by_cases hv : validateResultB j0 = true
              · simp [hp, hv] at h
                rw [← h]
                exact hv
              · simp [hp, hv, continueWith] at h
                exact ih (a + 1) j h
          | none =>
              by_cases hn : n = 0
              · simp [hp, hn] at h
              · simp [hp, hn, continueWith] at h
                exact ih (a + 1) j h

/-- Exhaustion of the throw-variant when every attempt yields non-parseable
output: the loop runs all `n + 1` remaining attempts, waits after each
non-final one, and throws the terminal error built from the last response. -/
theorem loopThrow_parsefail_exhaust (parse : String → Option JsObj) (model : Nat → ModelStep)
    (texts : Nat → String) :
    ∀ n a, (∀ k, a ≤ k → k ≤ a + n →
        model k = ModelStep.output (texts k) ∧ parse (jsTrimStr (texts k)) = none) →
      extractLoopThrow parse model (n + 1) a =
        ⟨RetryResult.thrown (parseFailMsg (a + n) (jsTrimStr (texts (a + n)))),
          attemptNums a (n + 1), (attemptNums a n).map (fun k => 1000 * k)⟩ := by
  intro n
  induction n with
  | zero =>
      intro a h
      obtain ⟨hm, hp⟩ := h a (Nat.le_refl a) (by omega)
      rw [extractLoopThrow, hm]
      simp [hp, attemptNums]
  | succ n ih =>
      intro a h
      obtain ⟨hm, hp⟩ := h a (Nat.le_refl a) (by omega)
      rw [extractLoopThrow, hm]
      have hrec := ih (a + 1) (fun k hk1 hk2 => h k (by omega) (by omega))
      simp [hp, hrec, continueWith, attemptNums]
      have e : a + 1 + n = a + (n + 1) := by omega
      rw [e]

/-- Exhaustion of the fallback-variant when every attempt yields non-parseable
output: all `n + 1` attempts run and the degraded record is returned. -/
theorem loopFallback_parsefail_exhaust (parse : String → Option JsObj) (model : Nat → ModelStep)
    (jobTitle : String) (texts : Nat → String) :
    ∀ n a, (∀ k, a ≤ k → k ≤ a + n →
        model k = ModelStep.output (texts k) ∧ parse (cleanResponseStr (texts k)) = none) →
      extractLoopFallback parse model jobTitle (n + 1) a =
        ⟨RetryResult.degraded jobTitle "Failed to parse AI response as JSON",
          attemptNums a (n + 1), (attemptNums a n).map (fun k => 1000 * k)⟩ := by
  intro n
  induction n with
  | zero =>
      intro a h
      obtain ⟨hm, hp⟩ := h a (Nat.le_refl a) (by omega)
      rw [extractLoopFallback, hm]
      simp [hp, attemptNums]
  | succ n ih =>
      intro a h
      obtain ⟨hm, hp⟩ := h a (Nat.le_refl a) (by omega)
      rw [extractLoopFallback, hm]
      have hrec := ih (a + 1) (fun k hk1 hk2 => h k (by omega) (by omega))
      simp [hp, hrec, continueWith, attemptNums]

/-- When every attempt parses but fails schema validation, the throw-variant
waits after every attempt (the final one included), exits the loop normally and
ends with `undef` (the JS `undefined` return). -/
theorem loopThrow_invalid_exhaust (parse : String → Option JsObj) (model : Nat → ModelStep)
    (texts : Nat → String) (objs : Nat → JsObj) :
    ∀ n a, (∀ k, a ≤ k → k ≤ a + n →
        model k = ModelStep.output (texts k) ∧
        parse (jsTrimStr (texts k)) = some (objs k) ∧
        validateResult (objs k) = false) →
      extractLoopThrow parse model (n + 1) a =
        ⟨RetryResult.undef, attemptNums a (n + 1),
          (attemptNums a (n + 1)).map (fun k => 1000 * k)⟩ := by
  intro n
  induction n with
  | zero =>
      intro a h
      obtain ⟨hm, hp, hv⟩ := h a (Nat.le_refl a) (by omega)
      rw [extractLoopThrow, hm]
      simp [hp, hv, continueWith, extractLoopThrow, attemptNums]
  | succ n ih =>
      intro a h
      obtain ⟨hm, hp, hv⟩ := h a (Nat.le_refl a) (by omega)
      rw [extractLoopThrow, hm]
      have hrec := ih (a + 1) (fun k hk1 hk2 => h k (by omega) (by omega))
      simp [hp, hv, hrec, continueWith, attemptNums]

/-! ## Claims C1, C2, C9: retry loop behaviour -/

/-- C1: for every sequence of model outcomes the retry loop performs at most
`maxRetries` attempts; if the model output is non-parseable on all attempts,
both variants stop after exactly `maxRetries` attempts with their respective
exhaustion policy — the throw-variant with the terminal error and the
fallback-variant with the degraded record echoing the job title — and the
handler's call uses the default `maxRetries = 3`. -/
theorem claim_C1 (parse : String → Option JsObj) (model : Nat → ModelStep)
    (texts : Nat → String) (jobTitle jobDescription : String) (maxRetries : Nat)
    (hpos : 1 ≤ maxRetries)
    (hfail : ∀ k, 1 ≤ k → k ≤ maxRetries →
      model k = ModelStep.output (texts k) ∧ parse (jsTrimStr (texts k)) = none)
    (hfailB : ∀ k, 1 ≤ k → k ≤ maxRetries → parse (cleanResponseStr (texts k)) = none) :
    (∀ model' : Nat → ModelStep,
      (extractJobDetailsWithRetry parse model' jobTitle jobDescription
          maxRetries).attempts.length ≤ maxRetries ∧
      (extractJobDetailsWithRetryB parse model' jobTitle jobDescription
          maxRetries).attempts.length ≤ maxRetries) ∧
    (extractJobDetailsWithRetry parse model jobTitle jobDescription maxRetries).result
        = RetryResult.thrown (parseFailMsg maxRetries (jsTrimStr (texts maxRetries))) ∧
    (extractJobDetailsWithRetry parse model jobTitle jobDescription
        maxRetries).attempts.length = maxRetries ∧
    (extractJobDetailsWithRetryB parse model jobTitle jobDescription maxRetries).result
        = RetryResult.degraded jobTitle "Failed to parse AI response as JSON" ∧
    (extractJobDetailsWithRetryB parse model jobTitle jobDescription
        maxRetries).attempts.length = maxRetries ∧
    extractJobDetailsWithRetryDefault parse model jobTitle jobDescription
        = extractJobDetailsWithRetry parse model jobTitle jobDescription 3 := by
  obtain ⟨n, rfl⟩ : ∃ n, maxRetries = n + 1 := ⟨maxRetries - 1, by omega⟩
  have hA := loopThrow_parsefail_exhaust parse model texts n 1
    (fun k hk1 hk2 => hfail k hk1 (by omega))
  have hB := loopFallback_parsefail_exhaust parse model jobTitle texts n 1
    (fun k hk1 hk2 => ⟨(hfail k hk1 (by omega)).1, hfailB k hk1 (by omega)⟩)
  refine ⟨fun model' => ⟨loopThrow_attempts_le parse model' (n + 1) 1,
      loopFallback_attempts_le parse model' jobTitle (n + 1) 1⟩, ?_, ?_, ?_, ?_, rfl⟩
  · unfold extractJobDetailsWithRetry
    rw [hA, show 1 + n = n + 1 from by omega]
  · unfold extractJobDetailsWithRetry
    rw [hA]
    simp [attemptNums_length]
  · unfold extractJobDetailsWithRetryB
    rw [hB]
  · unfold extractJobDetailsWithRetryB
    rw [hB]
    simp [attemptNums_length]

theorem claim_C1_witness :
    (extractJobDetailsWithRetry (fun _ => none) (fun _ => ModelStep.output "nonsense")
        "T" "D" 3).result = RetryResult.thrown (parseFailMsg 3 (jsTrimStr "nonsense")) ∧
    (extractJobDetailsWithRetryB (fun _ => none) (fun _ => ModelStep.output "nonsense")
        "T" "D" 3).result = RetryResult.degraded "T" "Failed to parse AI response as JSON" := by
  have h := claim_C1 (fun _ => none) (fun _ => ModelStep.output "nonsense")
    (fun _ => "nonsense") "T" "D" 3 (by omega)
    (fun k hk1 hk2 => ⟨rfl, rfl⟩) (fun k hk1 hk2 => rfl)
  exact ⟨h.2.1, h.2.2.2.1⟩

/-- C2: with `maxRetries = 3`, if the model output fails parsing on attempts 1
and 2 and parses to a schema-valid object on attempt 3, the loop returns that
object immediately, having invoked the model at attempts 1, 2, 3 and waited
exactly twice: 1000 ms after attempt 1 and 2000 ms after attempt 2. -/
theorem claim_C2 (parse : String → Option JsObj) (model : Nat → ModelStep)
    (t1 t2 t3 : String) (j : JsObj) (jobTitle jobDescription : String)
    (h1 : model 1 = ModelStep.output t1) (h2 : model 2 = ModelStep.output t2)
    (h3 : model 3 = ModelStep.output t3)
    (hp1 : parse (jsTrimStr t1) = none) (hp2 : parse (jsTrimStr t2) = none)
    (hp3 : parse (jsTrimStr t3) = some j) (hv : validateResult j = true) :
    extractJobDetailsWithRetry parse model jobTitle jobDescription 3 =
      ⟨RetryResult.ok j, [1, 2, 3], [1000, 2000]⟩ := by
  unfold extractJobDetailsWithRetry
  rw [extractLoopThrow, h1]
  simp only [hp1, show ¬(2 = 0) from by omega, if_neg, ite_false]
  rw [extractLoopThrow, h2]
  simp only [hp2]
  rw [extractLoopThrow, h3]
  simp only [hp3, hv, if_true]
  simp [continueWith]

/-- A parse oracle for witnesses: only `"good"` parses. -/
def witObjOk : JsObj := ⟨.vStr "Engineer", .vNull, .vNull, .vNull, .vNull⟩

def witParse (s : String) : Option JsObj :=
  if s == "good" then some witObjOk else none

def witModelC2 (a : Nat) : ModelStep :=
  if a == 3 then .output "good" else .output "bad"

theorem claim_C2_witness :
    extractJobDetailsWithRetry witParse witModelC2 "T" "D" 3 =
      ⟨RetryResult.ok witObjOk, [1, 2, 3], [1000, 2000]⟩ :=
  claim_C2 witParse witModelC2 "bad" "bad" "good" witObjOk "T" "D"
    rfl rfl rfl rfl rfl rfl (by decide)

/-- C9: in the throw-variant, if every attempt parses but fails schema
validation, the loop neither throws nor returns a record: it waits after every
attempt (the final `1000 * maxRetries` ms wait included), falls off the loop
and returns `undefined`; with the default `maxRetries = 3` the handler then
responds 200 with an undefined serialized body. -/
theorem claim_C9 (parse : String → Option JsObj) (model : Nat → ModelStep)
    (texts : Nat → String) (objs : Nat → JsObj) (jobTitle jobDescription : String)
    (maxRetries : Nat) (hpos : 1 ≤ maxRetries)
    (h : ∀ k, 1 ≤ k → k ≤ maxRetries →
      model k = ModelStep.output (texts k) ∧
      parse (jsTrimStr (texts k)) = some (objs k) ∧
      validateResult (objs k) = false) :
    (extractJobDetailsWithRetry parse model jobTitle jobDescription maxRetries).result
        = RetryResult.undef ∧
    (extractJobDetailsWithRetry parse model jobTitle jobDescription
        maxRetries).attempts.length = maxRetries ∧
    (extractJobDetailsWithRetry parse model jobTitle jobDescription maxRetries).waits
        = (attemptNums 1 maxRetries).map (fun k => 1000 * k) ∧
    1000 * maxRetries ∈
        (extractJobDetailsWithRetry parse model jobTitle jobDescription maxRetries).waits ∧
    (maxRetries = 3 →
      extractRespond parse model jobTitle jobDescription
        = ⟨200, corsHeaders, RespBody.undefinedBody⟩) := by
  obtain ⟨n, rfl⟩ : ∃ n, maxRetries = n + 1 := ⟨maxRetries - 1, by omega⟩
  have hE := loopThrow_invalid_exhaust parse model texts objs n 1
    (fun k hk1 hk2 => h k hk1 (by omega))
  refine ⟨?_, ?_, ?_, ?_, ?_⟩
  · unfold extractJobDetailsWithRetry
    rw [hE]
  · unfold extractJobDetailsWithRetry
    rw [hE]
    simp [attemptNums_length]
  · unfold extractJobDetailsWithRetry
    rw [hE]
  · unfold extractJobDetailsWithRetry
    rw [hE]
    have hm := attemptNums_mem_last n 1
    rw [show 1 + n = n + 1 from by omega] at hm
    exact List.mem_map_of_mem _ hm
  · intro h3
    have hn : n = 2 := by omega
    subst hn
    unfold extractRespond extractJobDetailsWithRetryDefault extractJobDetailsWithRetry
    rw [hE]

/-- A parsed-but-schema-invalid object: its `work_arrangement` is the
capitalized `"Hybrid"`. -/
def witObjHybrid : JsObj := ⟨.vStr "x", .vNull, .vStr "Hybrid", .vNull, .vNull⟩

theorem claim_C9_witness :
    (extractJobDetailsWithRetry (fun _ => some witObjHybrid)
        (fun _ => ModelStep.output "resp") "T" "D" 3).result = RetryResult.undef ∧
    extractRespond (fun _ => some witObjHybrid)
        (fun _ => ModelStep.output "resp") "T" "D"
      = ⟨200, corsHeaders, RespBody.undefinedBody⟩ := by
  have hbad : validateResult witObjHybrid = false := by decide
  have h := claim_C9 (fun _ => some witObjHybrid)
    (fun _ => ModelStep.output "resp") (fun _ => "resp")
    (fun _ => witObjHybrid) "T" "D" 3 (by omega)
    (fun k hk1 hk2 => ⟨rfl, rfl, hbad⟩)
  exact ⟨h.1, h.2.2.2.2 rfl⟩

/-! ## Claim C3: enum invariants of successful extraction results -/

/-- The enumeration invariant for `work_arrangement`. -/
def enumWaOk (j : JsObj) : Prop :=
  j.work_arrangement = JsValue.vNull ∨ j.work_arrangement = JsValue.vStr "remote" ∨
  j.work_arrangement = JsValue.vStr "hybrid" ∨ j.work_arrangement = JsValue.vStr "on-site"

/-- The enumeration invariant for `experience`. -/
def enumExpOk (j : JsObj) : Prop :=
  j.experience = JsValue.vNull ∨ j.experience = JsValue.vStr "Entry (0-2 Years)" ∨
  j.experience = JsValue.vStr "Mid (3-5 Years)" ∨
  j.experience = JsValue.vStr "Senior (6-8 Years)" ∨
  j.experience = JsValue.vStr "Lead (8+ Years)"

theorem validate_enum (j : JsObj) (hv : validateResult j = true) :
    enumWaOk j ∧ enumExpOk j := by
  simp [validateResult, workArrangements, experienceLabels] at hv
  obtain ⟨⟨⟨-, -⟩, hwa⟩, hexp⟩ := hv
  exact ⟨hwa, hexp⟩

theorem validateB_enum (j : JsObj) (hv : validateResultB j = true) :
    enumWaOk j ∧ enumExpOk j := by
  simp [validateResultB, workArrangements, experienceLabels] at hv
  obtain ⟨⟨⟨⟨-, -⟩, hwa⟩, -⟩, hexp⟩ := hv
  exact ⟨hwa, hexp⟩

/-- C3: every object returned through the success path of either retry loop
has `work_arrangement` null or one of the three lowercase literals and
`experience` null or one of the four labels; an object whose
`work_arrangement` string contains any uppercase letter fails both validators
and can never be returned as a success. -/
theorem claim_C3 :
    (∀ (parse : String → Option JsObj) (model : Nat → ModelStep) (n a : Nat) (j : JsObj),
      (extractLoopThrow parse model n a).result = RetryResult.ok j →
        enumWaOk j ∧ enumExpOk j) ∧
    (∀ (parse : String → Option JsObj) (model : Nat → ModelStep) (jobTitle : String)
        (n a : Nat) (j : JsObj),
      (extractLoopFallback parse model jobTitle n a).result = RetryResult.ok j →
        enumWaOk j ∧ enumExpOk j) ∧
    (∀ (j : JsObj) (s : String), j.work_arrangement = JsValue.vStr s →
      s.data.any Char.isUpper = true →
        validateResult j = false ∧ validateResultB j = false ∧
        (∀ (parse : String → Option JsObj) (model : Nat → ModelStep) (n a : Nat),
          (extractLoopThrow parse model n a).result ≠ RetryResult.ok j)) := by
  have huc : ∀ (j : JsObj) (s : String), j.work_arrangement = JsValue.vStr s →
      s.data.any Char.isUpper = true → validateResult j = false ∧ validateResultB j = false := by
    intro j s hwa hup
    have notin : s ≠ "remote" ∧ s ≠ "hybrid" ∧ s ≠ "on-site" := by
      refine ⟨?_, ?_, ?_⟩ <;> rintro rfl <;> exact absurd hup (by decide)
    constructor
    · cases hval : validateResult j with
      | false => rfl
      | true =>
          exfalso
          obtain ⟨he, -⟩ := validate_enum j hval
          rw [enumWaOk, hwa] at he
          rcases he with h | h | h | h
          · exact JsValue.noConfusion h
          · exact notin.1 (by injection h)
          · exact notin.2.1 (by injection h)
          · exact notin.2.2 (by injection h)
    · cases hval : validateResultB j with
      | false => rfl
      | true =>
          exfalso
          obtain ⟨he, -⟩ := validateB_enum j hval
          rw [enumWaOk, hwa] at he
          rcases he with h | h | h | h
          · exact JsValue.noConfusion h
          · exact notin.1 (by injection h)
          · exact notin.2.1 (by injection h)
          · exact notin.2.2 (by injection h)
  refine ⟨?_, ?_, ?_⟩
  · intro parse model n a j h
    exact validate_enum j (loopThrow_ok_valid parse model n a j h)
  · intro parse model jobTitle n a j h
    exact validateB_enum j (loopFallback_ok_valid parse model jobTitle n a j h)
  · intro j s hwa hup
    obtain ⟨hA, hB⟩ := huc j s hwa hup
    refine ⟨hA, hB, ?_⟩
    intro parse model n a hok
    have := loopThrow_ok_valid parse model n a j hok
    rw [hA] at this
    exact Bool.false_ne_true this

theorem claim_C3_witness :
    (enumWaOk witObjOk ∧ enumExpOk witObjOk) ∧ validateResult witObjHybrid = false := by
  refine ⟨claim_C3.1 (fun _ => some witObjOk) (fun _ => ModelStep.output "") 1 1 witObjOk ?_,
    (claim_C3.2.2 witObjHybrid "Hybrid" rfl (by decide)).1⟩
  rfl

/-! ## Claim C5: Markdown fence stripping -/

/-- A parse oracle under which exactly the text `okobj` parses (standing for
the bare JSON object of the claim). -/
def witParseC5 (s : String) : Option JsObj :=
  if s == "okobj" then some witObjOk else none

set_option maxRecDepth 4000 in
/-- C5 counterexample: the throw-variant (`extract-job-details.js`) never
strips code fences — its per-attempt preprocessing is only `trim` — so a
fenced model response fails where the bare response succeeds, while the
fallback-variant's cleaning step does strip the fence. -/
theorem claim_C5_counterexample :
    (extractLoopThrow witParseC5
        (fun _ => ModelStep.output "```json\nokobj\n```") 3 1).result
      = RetryResult.thrown (parseFailMsg 3 (jsTrimStr "```json\nokobj\n```")) ∧
    (extractLoopThrow witParseC5 (fun _ => ModelStep.output "okobj") 3 1).result
      = RetryResult.ok witObjOk ∧
    jsTrimStr "```json\nokobj\n```" ≠ "okobj" ∧
    cleanResponseStr "```json\nokobj\n```" = "okobj" := by
  refine ⟨?_, ?_, ?_, ?_⟩ <;> decide

theorem jsTrim_fix {s : List Char} (hL : s.dropWhile isJsWs = s)
    (hR : s.reverse.dropWhile isJsWs = s.reverse) : jsTrimList s = s := by
  rw [jsTrimList, hL, hR, List.reverse_reverse]

theorem fence3_isSuffixOf_append (x : List Char) :
    fence3.isSuffixOf (x ++ "\n```".data) = true := by
  rw [List.isSuffixOf, List.reverse_append]
  simp [fence3, List.isPrefixOf]

theorem fence3_of_fenceJson {s : List Char} (h : fenceJson.isPrefixOf s = true) :
    fence3.isPrefixOf s = true := by
  rw [List.isPrefixOf_iff_prefix] at h ⊢
  exact List.IsPrefix.trans ⟨"json".data, rfl⟩ h

/-- Stripping the trailing fence from `s ++ "\n```"` recovers `s` when `s` ends
in a non-whitespace character. -/
theorem stripTrailingFence_append {s : List Char} {d : Char} {r : List Char}
    (hrev : s.reverse = d :: r) (hd : isJsWs d = false) :
    stripTrailingFence (s ++ "\n```".data) = s := by
  rw [stripTrailingFence, if_pos (fence3_isSuffixOf_append s)]
  have hlen : (s ++ "\n```".data).length - 3 = s.length + 1 := by
    rw [List.length_append, show ("\n```".data).length = 4 from rfl]
    omega
  rw [hlen, List.take_append, show List.take 1 ("\n```".data) = ['\n'] from rfl]
  rw [List.reverse_append, show (['\n'] : List Char).reverse = ['\n'] from rfl]
  rw [List.singleton_append, List.dropWhile_cons, if_pos (by decide), hrev,
    List.dropWhile_cons, if_neg (by simp [hd]), ← hrev, List.reverse_reverse]

theorem dropWhile_cons_head {p : Char → Bool} {a : Char} {A : List Char} (ha : p a = false) :
    List.dropWhile p (a :: A) = a :: A := by
  rw [List.dropWhile_cons, if_neg (by simp [ha])]

/-- Two model oracles whose outputs clean to the same text drive the
fallback-variant loop identically. -/
theorem loopFallback_model_congr (parse : String → Option JsObj) (jobTitle : String)
    (m1 m2 : Nat → ModelStep)
    (h : ∀ k, ∃ t1 t2, m1 k = ModelStep.output t1 ∧ m2 k = ModelStep.output t2 ∧
        cleanResponseStr t1 = cleanResponseStr t2) :
    ∀ n a, extractLoopFallback parse m1 jobTitle n a
        = extractLoopFallback parse m2 jobTitle n a := by
  intro n
  induction n with
  | zero => intro a; rfl
  | succ n ih =>
      intro a
      obtain ⟨t1, t2, hm1, hm2, heq⟩ := h a
      rw [extractLoopFallback, extractLoopFallback, hm1, hm2]
      dsimp only
      rw [heq]
      cases hp : parse (cleanResponseStr t2) with
      | some j =>
          by_cases hv : validateResultB j = true <;> simp [hp, hv, continueWith, ih (a + 1)]
      | none =>
          by_cases hn : n = 0 <;> simp [hp, hn, continueWith, ih (a + 1)]

/-- C5 amended: the fence-stripping preprocessing belongs only to the
fallback-variant (`src/unnamed/part_001`); there, a response wrapped in
```` ```json ```` or bare ```` ``` ```` fences around newlines cleans to
exactly the enclosed text, so the loop behaves identically on the fenced and
the bare response.  (The throw-variant of `extract-job-details.js` only trims,
as `claim_C5_counterexample` shows.)  `s` is the enclosed text: non-empty,
with no leading/trailing whitespace, itself not starting with a fence. -/
theorem claim_C5_amended (s : List Char) (hne : s ≠ [])
    (hL : s.dropWhile isJsWs = s) (hR : s.reverse.dropWhile isJsWs = s.reverse)
    (hF : fence3.isPrefixOf s = false) :
    cleanResponseList ("```json\n".data ++ s ++ "\n```".data) = s ∧
    cleanResponseList ("```\n".data ++ s ++ "\n```".data) = s ∧
    cleanResponseList s = s ∧
    (∀ (parse : String → Option JsObj) (jobTitle : String) (n a : Nat),
      extractLoopFallback parse
          (fun _ => ModelStep.output ⟨"```json\n".data ++ s ++ "\n```".data⟩) jobTitle n a =
        extractLoopFallback parse (fun _ => ModelStep.output ⟨s⟩) jobTitle n a) := by
  obtain ⟨c, s', rfl⟩ : ∃ c s', s = c :: s' := by
    cases s with
    | nil => exact absurd rfl hne
    | cons c s' => exact ⟨c, s', rfl⟩
  have hc : isJsWs c = false := dropWhile_fix_head hL
  obtain ⟨d, r, hrev⟩ : ∃ d r, (c :: s').reverse = d :: r := by
    cases h : (c :: s').reverse with
    | nil => exact absurd h (by simp)
    | cons d r => exact ⟨d, r, rfl⟩
  have hR' := hR
  rw [hrev] at hR'
  have hd : isJsWs d = false := dropWhile_fix_head hR'
  have e1 : ("```json\n".data : List Char)
      = '\x60' :: '\x60' :: '\x60' :: 'j' :: 's' :: 'o' :: 'n' :: '\n' :: [] := rfl
  have e3 : ("```\n".data : List Char) = '\x60' :: '\x60' :: '\x60' :: '\n' :: [] := rfl
  have hmid : List.dropWhile isJsWs ('\n' :: c :: (s' ++ "\n```".data))
      = c :: (s' ++ "\n```".data) := by
    rw [List.dropWhile_cons, if_pos (by decide), dropWhile_cons_head hc]
  have hstrip : stripTrailingFence (c :: (s' ++ "\n```".data)) = c :: s' := by
    have h0 := stripTrailingFence_append hrev hd
    rw [List.cons_append] at h0
    exact h0
  have htrimS : jsTrimList (c :: s') = c :: s' := jsTrim_fix hL hR
  have hpref1 : fenceJson.isPrefixOf ("```json\n".data ++ (c :: s') ++ "\n```".data) = true := by
    rw [e1]
    simp only [List.cons_append, List.nil_append]
    simp [fenceJson, show ("```json".data : List Char)
      = ['\x60', '\x60', '\x60', 'j', 's', 'o', 'n'] from rfl, List.isPrefixOf]
  have hprefJ2 : fenceJson.isPrefixOf ("```\n".data ++ (c :: s') ++ "\n```".data) = false := by
    rw [e3]
    simp only [List.cons_append, List.nil_append]
    simp [fenceJson, show ("```json".data : List Char)
      = ['\x60', '\x60', '\x60', 'j', 's', 'o', 'n'] from rfl, List.isPrefixOf]
  have hpref3 : fence3.isPrefixOf ("```\n".data ++ (c :: s') ++ "\n```".data) = true := by
    rw [e3]
    simp only [List.cons_append, List.nil_append]
    simp [fence3, show ("```".data : List Char) = ['\x60', '\x60', '\x60'] from rfl,
      List.isPrefixOf]
  have htrimT : jsTrimList ("```json\n".data ++ (c :: s') ++ "\n```".data)
      = "```json\n".data ++ (c :: s') ++ "\n```".data := by
    apply jsTrim_fix
    · rw [e1]
      simp only [List.cons_append, List.nil_append]
      exact dropWhile_cons_head (by decide)
    · rw [List.reverse_append,
        show (("\n```".data : List Char)).reverse = '\x60' :: '\x60' :: '\x60' :: '\n' :: [] from rfl]
      simp only [List.cons_append, List.nil_append]
      exact dropWhile_cons_head (by decide)
  have htrimT3 : jsTrimList ("```\n".data ++ (c :: s') ++ "\n```".data)
      = "```\n".data ++ (c :: s') ++ "\n```".data := by
    apply jsTrim_fix
    · rw [e3]
      simp only [List.cons_append, List.nil_append]
      exact dropWhile_cons_head (by decide)
    · rw [List.reverse_append,
        show (("\n```".data : List Char)).reverse = '\x60' :: '\x60' :: '\x60' :: '\n' :: [] from rfl]
      simp only [List.cons_append, List.nil_append]
      exact dropWhile_cons_head (by decide)
  have h1 : cleanResponseList ("```json\n".data ++ (c :: s') ++ "\n```".data) = c :: s' := by
    rw [cleanResponseList, htrimT, stripFences, if_pos hpref1, stripLeadingFenceJson]
    rw [e1]
    simp only [List.cons_append, List.nil_append]
    rw [show List.drop 7
        ('\x60' :: '\x60' :: '\x60' :: 'j' :: 's' :: 'o' :: 'n' :: '\n' :: c :: (s' ++ "\n```".data))
        = '\n' :: c :: (s' ++ "\n```".data) from rfl]
    rw [hmid, hstrip, htrimS]
  have h2 : cleanResponseList ("```\n".data ++ (c :: s') ++ "\n```".data) = c :: s' := by
    rw [cleanResponseList, htrimT3, stripFences, if_neg (by rw [hprefJ2]; simp),
      if_pos hpref3, stripLeadingFence3]
    rw [e3]
    simp only [List.cons_append, List.nil_append]
    rw [show List.drop 3 ('\x60' :: '\x60' :: '\x60' :: '\n' :: c :: (s' ++ "\n```".data))
        = '\n' :: c :: (s' ++ "\n```".data) from rfl]
    rw [hmid, hstrip, htrimS]
  have hnotJson : fenceJson.isPrefixOf (c :: s') = false := by
    cases h : fenceJson.isPrefixOf (c :: s') with
    | false => rfl
    | true => exact absurd (fence3_of_fenceJson h) (by simp [hF])
  have h3 : cleanResponseList (c :: s') = c :: s' := by
    rw [cleanResponseList, htrimS, stripFences, if_neg (by rw [hnotJson]; simp),
      if_neg (by rw [hF]; simp), htrimS]
  refine ⟨h1, h2, h3, ?_⟩
  intro parse jobTitle n a
  apply loopFallback_model_congr
  intro k
  refine ⟨_, _, rfl, rfl, ?_⟩
  show (⟨cleanResponseList ("```json\n".data ++ (c :: s') ++ "\n```".data)⟩ : String)
      = ⟨cleanResponseList (c :: s')⟩
  rw [h1, h3]

theorem claim_C5_amended_witness :
    cleanResponseList ("```json\n".data ++ "okobj".data ++ "\n```".data) = "okobj".data ∧
    extractLoopFallback witParseC5
        (fun _ => ModelStep.output ⟨"```json\n".data ++ "okobj".data ++ "\n```".data⟩)
        "T" 3 1
      = extractLoopFallback witParseC5 (fun _ => ModelStep.output ⟨"okobj".data⟩) "T" 3 1 := by
  have h := claim_C5_amended ("okobj".data) (by decide) (by decide) (by decide) (by decide)
  exact ⟨h.1, h.2.2.2 witParseC5 "T" 3 1⟩

/-! ## Claims C6, C7, C8, C10: the HTTP handler -/

/-- C8: OPTIONS requests short-circuit to 200 with the CORS headers and an
empty body — for every body-parse and model oracle, so neither the Normalizer
nor the Extraction Loop is consulted — and any method other than OPTIONS and
POST yields 405 with the method-not-allowed error body. -/
theorem claim_C8 (jsonParse : String → Except String ParsedBody)
    (urlParse : String → Option String × Option String)
    (parse : String → Option JsObj) (model : Nat → ModelStep) (e : Event) :
    (e.httpMethod = "OPTIONS" →
      handler jsonParse urlParse parse model e = ⟨200, corsHeaders, RespBody.empty⟩) ∧
    (e.httpMethod ≠ "OPTIONS" → e.httpMethod ≠ "POST" →
      handler jsonParse urlParse parse model e
        = ⟨405, corsHeaders, RespBody.errorOnly "Method not allowed"⟩) := by
  constructor
  · intro h
    rw [handler, if_pos h]
  · intro h1 h2
    rw [handler, if_neg h1, if_pos h2]

def witJsonParse (s : String) : Except String ParsedBody := .error "bad json"

def witJsonParseOk (s : String) : Except String ParsedBody := .ok ⟨.vStr "t", .vUndefined⟩

def witUrlParse (s : String) : Option String × Option String := (none, none)

def witModel (a : Nat) : ModelStep := .output "resp"

theorem claim_C8_witness :
    handler witJsonParse witUrlParse witParse witModel ⟨"OPTIONS", ⟨none, none⟩, .str "", none⟩
      = ⟨200, corsHeaders, RespBody.empty⟩ ∧
    handler witJsonParse witUrlParse witParse witModel ⟨"GET", ⟨none, none⟩, .str "", none⟩
      = ⟨405, corsHeaders, RespBody.errorOnly "Method not allowed"⟩ := by
  have h1 := claim_C8 witJsonParse witUrlParse witParse witModel
    ⟨"OPTIONS", ⟨none, none⟩, .str "", none⟩
  have h2 := claim_C8 witJsonParse witUrlParse witParse witModel
    ⟨"GET", ⟨none, none⟩, .str "", none⟩
  exact ⟨h1.1 rfl, h2.2 (by decide) (by decide)⟩

/-- C6: whenever, after all body-parsing branches and the query-string
fallback, either field is still falsy, every POST request gets the 400
missing-fields response with the `received` echo (`null` standing in for a
falsy value) — independently of the parse and model oracles, so the
extraction loop is never invoked. -/
theorem claim_C6 (jsonParse : String → Except String ParsedBody)
    (urlParse : String → Option String × Option String) (e : Event) (jt jd : JsValue)
    (hm : e.httpMethod = "POST")
    (hn : normalizeBody jsonParse urlParse e = NormStep.fields jt jd)
    (hmiss : truthy (applyQueryFallback e jt jd).1 = false ∨
             truthy (applyQueryFallback e jt jd).2 = false) :
    ∀ (parse : String → Option JsObj) (model : Nat → ModelStep),
      handler jsonParse urlParse parse model e =
        ⟨400, corsHeaders,
          RespBody.missingFields "Missing required fields: job_title and job_description"
            (jsOrNull (applyQueryFallback e jt jd).1)
            (jsOrNull (applyQueryFallback e jt jd).2) (mkDebug e)⟩ := by
  intro parse model
  rw [handler, if_neg (by rw [hm]; decide), if_neg (by rw [hm]; simp), hn]
  dsimp only
  have hcond : (!truthy (applyQueryFallback e jt jd).1 ||
      !truthy (applyQueryFallback e jt jd).2) = true := by
    rcases hmiss with h | h <;> simp [h]
  rw [if_pos hcond]

theorem claim_C6_witness :
    handler witJsonParseOk witUrlParse witParse witModel
        ⟨"POST", ⟨none, none⟩, .str "x", none⟩
      = ⟨400, corsHeaders,
          RespBody.missingFields "Missing required fields: job_title and job_description"
            (JsValue.vStr "t") JsValue.vNull ⟨none, "string", "x", none⟩⟩ := by
  have h := claim_C6 witJsonParseOk witUrlParse ⟨"POST", ⟨none, none⟩, .str "x", none⟩
    (JsValue.vStr "t") JsValue.vUndefined rfl rfl (Or.inr rfl) witParse witModel
  exact h.trans (by set_option maxRecDepth 10000 in decide)

/-- C7: for a POST whose content type contains `application/json` and whose
body parses to non-empty string fields, the Normalizer yields exactly that
pair unchanged, and the handler's behaviour is exactly the extraction stage
applied to those very strings. -/
theorem claim_C7 (jsonParse : String → Except String ParsedBody)
    (urlParse : String → Option String × Option String)
    (parse : String → Option JsObj) (model : Nat → ModelStep) (e : Event) (t d : String)
    (hm : e.httpMethod = "POST")
    (hct : jsIncludes (contentTypeOf e.headers) "application/json" = true)
    (hp : parseBodyJson jsonParse e.body = .ok ⟨.vStr t, .vStr d⟩)
    (ht : t ≠ "") (hd : d ≠ "") :
    normalizeBody jsonParse urlParse e = NormStep.fields (.vStr t) (.vStr d) ∧
    handler jsonParse urlParse parse model e = extractRespond parse model t d := by
  have hnorm : normalizeBody jsonParse urlParse e = NormStep.fields (.vStr t) (.vStr d) := by
    rw [normalizeBody]
    dsimp only
    rw [if_pos hct, jsonNormStep, hp]
  refine ⟨hnorm, ?_⟩
  have htt : truthy (JsValue.vStr t) = true := by simp [truthy, ht]
  have hdt : truthy (JsValue.vStr d) = true := by simp [truthy, hd]
  have happ : applyQueryFallback e (JsValue.vStr t) (JsValue.vStr d)
      = (JsValue.vStr t, JsValue.vStr d) := by
    rw [applyQueryFallback, if_neg (by simp [htt, hdt])]
  rw [handler, if_neg (by rw [hm]; decide), if_neg (by rw [hm]; simp), hnorm]
  dsimp only
  rw [happ]
  rw [if_neg (by simp [htt, hdt])]
  rfl

def witJsonParseTD (s : String) : Except String ParsedBody :=
  .ok ⟨.vStr "Title", .vStr "Desc"⟩

def evC7 : Event := ⟨"POST", ⟨some "application/json", none⟩, .str "b", none⟩

theorem claim_C7_witness :
    normalizeBody witJsonParseTD witUrlParse evC7
      = NormStep.fields (.vStr "Title") (.vStr "Desc") ∧
    handler witJsonParseTD witUrlParse witParse witModel evC7
      = extractRespond witParse witModel "Title" "Desc" :=
  claim_C7 witJsonParseTD witUrlParse witParse witModel evC7 "Title" "Desc"
    rfl (by decide) rfl (by decide) (by decide)

/-- C10: content-type dispatch is by case-sensitive substring containment on
the computed header value, which prefers the lowercase `content-type` key;
any value containing `application/json` selects the JSON branch; and in the
default branch (no recognized content type) the 400 invalid-format response is
returned exactly when the default JSON parse throws. -/
theorem claim_C10 (jsonParse : String → Except String ParsedBody)
    (urlParse : String → Option String × Option String)
    (parse : String → Option JsObj) (model : Nat → ModelStep) (e : Event) :
    (∀ (sl : String) (u : Option String), sl ≠ "" → contentTypeOf ⟨some sl, u⟩ = sl) ∧
    (∀ u : String, contentTypeOf ⟨none, some u⟩ = u) ∧
    (jsIncludes (contentTypeOf e.headers) "application/json" = true →
      normalizeBody jsonParse urlParse e = jsonNormStep jsonParse e.body) ∧
    (e.httpMethod = "POST" →
      jsIncludes (contentTypeOf e.headers) "application/json" = false →
      jsIncludes (contentTypeOf e.headers) "application/x-www-form-urlencoded" = false →
      jsIncludes (contentTypeOf e.headers) "multipart/form-data" = false →
      (handler jsonParse urlParse parse model e
          = ⟨400, corsHeaders,
              RespBody.errorOnly "Invalid request format. Use JSON or URL-encoded form data."⟩
        ↔ ∃ m, parseBodyJson jsonParse e.body = Except.error m)) := by
  refine ⟨?_, ?_, ?_, ?_⟩
  · intro sl u h
    rw [contentTypeOf]
    simp [h]
  · intro u
    rfl
  · intro hct
    rw [normalizeBody]
    dsimp only
    rw [if_pos hct]
  · intro hm h1 h2 h3
    constructor
    · intro hresp
      cases hpb : parseBodyJson jsonParse e.body with
      | error m => exact ⟨m, rfl⟩
      | ok pb =>
          exfalso
          rw [handler, if_neg (by rw [hm]; decide), if_neg (by rw [hm]; simp),
            normalizeBody] at hresp
          dsimp only at hresp
          rw [if_neg (by rw [h1]; simp), if_neg (by rw [h2]; simp),
            if_neg (by rw [h3]; simp), hpb] at hresp
          dsimp only at hresp
          by_cases hcond : (!truthy (applyQueryFallback e pb.job_title pb.job_description).1 ||
              !truthy (applyQueryFallback e pb.job_title pb.job_description).2) = true
          · rw [if_pos hcond] at hresp
            simp at hresp
          · rw [if_neg hcond] at hresp
            cases hres : (extractJobDetailsWithRetryDefault parse model
                (jsCoerceString (applyQueryFallback e pb.job_title pb.job_description).1)
                (jsCoerceString (applyQueryFallback e pb.job_title pb.job_description).2)).result <;>
              rw [extractRespond, hres] at hresp <;> simp at hresp
    · rintro ⟨m, hpm⟩
      rw [handler, if_neg (by rw [hm]; decide), if_neg (by rw [hm]; simp), normalizeBody]
      dsimp only
      rw [if_neg (by rw [h1]; simp), if_neg (by rw [h2]; simp),
        if_neg (by rw [h3]; simp), hpm]

theorem claim_C10_witness :
    contentTypeOf ⟨some "text/html", some "ignored"⟩ = "text/html" ∧
    handler witJsonParse witUrlParse witParse witModel
        ⟨"POST", ⟨some "text/html", none⟩, .str "z", none⟩
      = ⟨400, corsHeaders,
          RespBody.errorOnly "Invalid request format. Use JSON or URL-encoded form data."⟩ := by
  have h := claim_C10 witJsonParse witUrlParse witParse witModel
    ⟨"POST", ⟨some "text/html", none⟩, .str "z", none⟩
  exact ⟨h.1 "text/html" (some "ignored") (by decide),
    (h.2.2.2 rfl (by decide) (by decide) (by decide)).mpr ⟨"bad json", rfl⟩⟩

/-! ## Claim C4: multipart extraction

Toolkit: lemmas about `isPrefixOf`, `hasSub`, the splitter and the field
matcher, leading to the behaviour of the Normalizer's multipart string branch
on a canonical two-field body. -/

theorem isPrefixOf_append_self (l r : List Char) : l.isPrefixOf (l ++ r) = true := by
  rw [List.isPrefixOf_iff_prefix]
  exact List.prefix_append l r

theorem isPrefixOf_extend {pat l : List Char} (y : List Char) (h : pat.isPrefixOf l = true) :
    pat.isPrefixOf (l ++ y) = true := by
  rw [List.isPrefixOf_iff_prefix] at h ⊢
  exact h.trans (List.prefix_append l y)

theorem isPrefixOf_append_of_le :
    ∀ (pat x r : List Char), pat.length ≤ x.length →
      pat.isPrefixOf (x ++ r) = pat.isPrefixOf x := by
  intro pat
  induction pat with
  | nil => intro x r h; simp [List.isPrefixOf]
  | cons p pt ih =>
      intro x r h
      cases x with
      | nil => simp at h
      | cons c x' =>
          rw [List.cons_append]
          simp only [List.isPrefixOf]
          rw [ih x' r (by simpa using h)]

theorem hasSub_nil_pat : ∀ y : List Char, hasSub [] y = true := by
  intro y
  cases y with
  | nil => rfl
  | cons c r => simp [hasSub, List.isPrefixOf]

theorem hasSub_append_left {pat : List Char} :
    ∀ {x : List Char} (y : List Char), hasSub pat x = true → hasSub pat (x ++ y) = true := by
  intro x
  induction x with
  | nil =>
      intro y h
      rw [hasSub] at h
      have hp : pat = [] := by simpa using h
      subst hp
      exact hasSub_nil_pat y
  | cons c x' ih =>
      intro y h
      rw [hasSub, Bool.or_eq_true] at h
      rw [List.cons_append, hasSub, Bool.or_eq_true]
      rcases h with h | h
      · left
        have := isPrefixOf_extend y h
        rw [List.cons_append] at this
        exact this
      · right
        exact ih y h

/-- No occurrence of `pat` starts inside `a`, where the text continues with
`b` after `a`. -/
def noPatStart (pat : List Char) : List Char → List Char → Bool
  | [], _ => true
  | c :: rest, b => !(pat.isPrefixOf (c :: (rest ++ b))) && noPatStart pat rest b

/-- The scan of `matchFieldAux` skips a prefix `a` in which no match of the
literal can start, provided at least `pat.length` characters of lookahead
(`b`) separate `a` from the unconstrained remainder `r`. -/
theorem matchFieldAux_skip (pat : List Char) :
    ∀ (a b r : List Char), pat.length ≤ b.length → noPatStart pat a b = true →
      matchFieldAux pat (a ++ (b ++ r)) = matchFieldAux pat (b ++ r) := by
  intro a
  induction a with
  | nil => intro b r hlen h; rw [List.nil_append]
  | cons c a' ih =>
      intro b r hlen h
      rw [noPatStart, Bool.and_eq_true] at h
      obtain ⟨hh, ht⟩ := h
      have h1 : pat.isPrefixOf (c :: (a' ++ b)) = false := by
        cases hx : pat.isPrefixOf (c :: (a' ++ b)) with
        | false => rfl
        | true => rw [hx] at hh; exact absurd hh (by simp)
      have hsplit : c :: (a' ++ (b ++ r)) = (c :: (a' ++ b)) ++ r := by
        simp [List.append_assoc]
      rw [List.cons_append, matchFieldAux]
      rw [if_neg (by
        rw [hsplit, isPrefixOf_append_of_le pat (c :: (a' ++ b)) r
          (by simp; omega), h1]
        simp)]
      exact ih b r hlen ht

theorem splitOnSubAux_skip (sep : List Char) :
    ∀ (a acc r : List Char) (n : Nat), (a ++ r).length ≤ n →
      hasSub2 sep a r = false →
      splitOnSubAux sep n acc (a ++ r)
        = splitOnSubAux sep (n - a.length) (a.reverse ++ acc) r := by
  intro a
  induction a with
  | nil => intro acc r n hn h; simp
  | cons c a' ih =>
      intro acc r n hn h
      rw [hasSub2, Bool.or_eq_false_iff] at h
      obtain ⟨h1, h2⟩ := h
      cases n with
      | zero => simp at hn
      | succ m =>
          rw [List.cons_append]
          show splitOnSubAux sep (m + 1) acc (c :: (a' ++ r)) = _
          rw [splitOnSubAux, if_neg (by rw [h1]; simp)]
          rw [ih (c :: acc) r m (by simp at hn ⊢; omega) h2]
          simp [List.append_assoc, Nat.succ_sub_succ]

theorem splitOnSubAux_hit (s0 : Char) (st : List Char) (acc r : List Char) (n : Nat)
    (hn : 1 ≤ n) :
    splitOnSubAux (s0 :: st) n acc ((s0 :: st) ++ r)
      = acc.reverse :: splitOnSubAux (s0 :: st) (n - 1) [] r := by
  cases n with
  | zero => omega
  | succ m =>
      rw [List.cons_append]
      show splitOnSubAux (s0 :: st) (m + 1) acc (s0 :: (st ++ r)) = _
      rw [splitOnSubAux, if_pos (by rw [← List.cons_append]; exact isPrefixOf_append_self _ r)]
      rw [show (s0 :: st).length - 1 = st.length from by simp]
      rw [List.drop_left]
      simp

theorem splitOnSubAux_last (sep : List Char) :
    ∀ (a acc : List Char) (n : Nat), a.length ≤ n → hasSub2 sep a [] = false →
      splitOnSubAux sep n acc a = [acc.reverse ++ a] := by
  intro a
  induction a with
  | nil =>
      intro acc n hn h
      cases n <;> simp [splitOnSubAux]
  | cons c a' ih =>
      intro acc n hn h
      rw [hasSub2, Bool.or_eq_false_iff] at h
      obtain ⟨h1, h2⟩ := h
      rw [List.append_nil] at h1
      cases n with
      | zero => simp at hn
      | succ m =>
          rw [splitOnSubAux, if_neg (by rw [h1]; simp)]
          rw [ih (c :: acc) m (by simp at hn ⊢; omega) h2]
          simp [List.append_assoc]

theorem hasSub2_of_head_ne (p0 : Char) (pt : List Char) :
    ∀ (a r : List Char), (∀ c ∈ a, c ≠ p0) → hasSub2 (p0 :: pt) a r = false := by
  intro a
  induction a with
  | nil => intro r h; rfl
  | cons c a' ih =>
      intro r h
      have hc : c ≠ p0 := h c (by simp)
      rw [hasSub2]
      have h1 : (p0 :: pt).isPrefixOf (c :: (a' ++ r)) = false := by
        simp only [List.isPrefixOf]
        have : (p0 == c) = false := by
          simp [Ne.symm hc]
        rw [this]
        simp
      rw [h1, ih r (fun x hx => h x (by simp [hx]))]
      rfl

/-- `\r\n`. -/
def crlfL : List Char := ['\r', '\n']

/-- The part-header prefix before the `name="..."` parameter. -/
def dispoPrefix : List Char := "Content-Disposition: form-data; ".data

/-- One canonical multipart part as it appears between boundary markers: a
line break, the `Content-Disposition` header carrying the field name, a blank
line, the field value, and the line break before the next boundary marker. -/
def mkPartBody (fname : String) (v : List Char) : List Char :=
  crlfL ++ dispoPrefix ++ namePat fname ++ crlfL ++ crlfL ++ v ++ crlfL

/-- `--` followed by the boundary: the marker the body is split on. -/
def sepOf (b : List Char) : List Char := '-' :: '-' :: b

/-- The closing `--` + final line break after the last boundary marker. -/
def multipartCloser : List Char := ['-', '-', '\r', '\n']

/-- A canonical `multipart/form-data` body with exactly the two text fields. -/
def mkMultipartBody (b v1 v2 : List Char) : List Char :=
  sepOf b ++ mkPartBody "job_title" v1 ++ sepOf b ++
    mkPartBody "job_description" v2 ++ sepOf b ++ multipartCloser

/-- A field value in canonical single-line form: non-empty, containing no line
break, and equal to its own trim (no leading/trailing whitespace). -/
def cleanValue (v : List Char) : Bool :=
  !v.isEmpty &&
  v.all (fun c => !(c == '\n') && !(c == '\r')) &&
  (List.dropWhile isJsWs v == v) &&
  (List.dropWhile isJsWs v.reverse == v.reverse)

theorem captureLine_append_crlf :
    ∀ v : List Char, (∀ c ∈ v, ¬(c = '\n') ∧ ¬(c = '\r')) →
      captureLine (v ++ crlfL) = v := by
  intro v
  induction v with
  | nil => intro h; rfl
  | cons c v' ih =>
      intro h
      obtain ⟨hn, hr⟩ := h c (by simp)
      rw [List.cons_append, captureLine]
      rw [if_neg (by simp [hn]), if_neg (by simp [hr])]
      rw [ih (fun x hx => h x (by simp [hx]))]

theorem matchBlank_canonical (c : Char) (v' : List Char) (hc : isJsWs c = false) :
    matchBlank ('\r' :: '\n' :: '\r' :: '\n' :: ((c :: v') ++ crlfL))
      = some ((c :: v') ++ crlfL) := by
  have hcn : (c == '\n') = false := by
    cases hb : c == '\n' with
    | false => rfl
    | true => rw [eq_of_beq hb] at hc; simp [isJsWs] at hc
  have hcr : (c == '\r') = false := by
    cases hb : c == '\r' with
    | false => rfl
    | true => rw [eq_of_beq hb] at hc; simp [isJsWs] at hc
  rw [matchBlank]
  rw [List.cons_append]
  rw [List.takeWhile_cons, if_pos (by decide), List.takeWhile_cons, if_pos (by decide),
    List.takeWhile_cons, if_pos (by decide), List.takeWhile_cons, if_pos (by decide),
    List.takeWhile_cons, if_neg (by simp [hc])]
  rw [show (['\r', '\n', '\r', '\n'] : List Char).length = 4 from rfl]
  rw [tryFromWs]
  rw [show List.drop 4 ('\r' :: '\n' :: '\r' :: '\n' :: (c :: (v' ++ crlfL)))
      = c :: (v' ++ crlfL) from rfl]
  rw [show blankLine (c :: (v' ++ crlfL)) = none from by
    rw [blankLine, lineBreak]
    simp [hcn, hcr]]
  rw [tryFromWs]
  rw [show List.drop 3 ('\r' :: '\n' :: '\r' :: '\n' :: (c :: (v' ++ crlfL)))
      = '\n' :: (c :: (v' ++ crlfL)) from rfl]
  rw [show blankLine ('\n' :: (c :: (v' ++ crlfL))) = none from by
    rw [blankLine]
    rw [show lineBreak ('\n' :: (c :: (v' ++ crlfL))) = some (c :: (v' ++ crlfL)) from by
      rw [lineBreak]; simp]
    show lineBreak (c :: (v' ++ crlfL)) = none
    rw [lineBreak]
    simp [hcn, hcr]]
  rw [tryFromWs]
  rw [show List.drop 2 ('\r' :: '\n' :: '\r' :: '\n' :: (c :: (v' ++ crlfL)))
      = '\r' :: '\n' :: (c :: (v' ++ crlfL)) from rfl]
  rw [show blankLine ('\r' :: '\n' :: (c :: (v' ++ crlfL))) = none from by
    rw [blankLine]
    rw [show lineBreak ('\r' :: '\n' :: (c :: (v' ++ crlfL))) = some (c :: (v' ++ crlfL)) from by
      rw [lineBreak]; simp]
    show lineBreak (c :: (v' ++ crlfL)) = none
    rw [lineBreak]
    simp [hcn, hcr]]
  rw [tryFromWs]
  rw [show List.drop 1 ('\r' :: '\n' :: '\r' :: '\n' :: (c :: (v' ++ crlfL)))
      = '\n' :: '\r' :: '\n' :: (c :: (v' ++ crlfL)) from rfl]
  rw [show blankLine ('\n' :: '\r' :: '\n' :: (c :: (v' ++ crlfL)))
      = some ((c :: v') ++ crlfL) from by
    rw [blankLine]
    rw [show lineBreak ('\n' :: '\r' :: '\n' :: (c :: (v' ++ crlfL)))
        = some ('\r' :: '\n' :: (c :: (v' ++ crlfL))) from by
      rw [lineBreak]; simp]
    show lineBreak ('\r' :: '\n' :: (c :: (v' ++ crlfL))) = some ((c :: v') ++ crlfL)
    rw [lineBreak]
    simp]
  rfl

/-- The regex-based field extraction on one canonical part recovers exactly
the (single-line, trimmed) value. -/
theorem partField_canonical (fname : String) (v : List Char)
    (hv : cleanValue v = true)
    (hnps : noPatStart (namePat fname) (crlfL ++ dispoPrefix) (namePat fname) = true)
    (hhs : hasSub (namePat fname) ((crlfL ++ dispoPrefix) ++ namePat fname) = true) :
    partField (namePat fname) (mkPartBody fname v) = some v := by
  rw [cleanValue] at hv
  simp only [Bool.and_eq_true] at hv
  obtain ⟨⟨⟨hne, hall⟩, hL⟩, hR⟩ := hv
  have hL' : List.dropWhile isJsWs v = v := eq_of_beq hL
  have hR' : List.dropWhile isJsWs v.reverse = v.reverse := eq_of_beq hR
  obtain ⟨c, v', rfl⟩ : ∃ c v', v = c :: v' := by
    cases v with
    | nil => simp at hne
    | cons c v' => exact ⟨c, v', rfl⟩
  have hc : isJsWs c = false := dropWhile_fix_head hL'
  have hnoNL : ∀ x ∈ c :: v', ¬(x = '\n') ∧ ¬(x = '\r') := by
    rw [List.all_eq_true] at hall
    intro x hx
    have h2 := hall x hx
    simp at h2
    exact h2
  have hshape : mkPartBody fname (c :: v')
      = (crlfL ++ dispoPrefix) ++ (namePat fname ++
          ('\r' :: '\n' :: '\r' :: '\n' :: ((c :: v') ++ crlfL))) := by
    simp [mkPartBody, crlfL, List.append_assoc]
  have hhs' : hasSub (namePat fname) (mkPartBody fname (c :: v')) = true := by
    rw [hshape]
    rw [show (crlfL ++ dispoPrefix) ++ (namePat fname ++
          ('\r' :: '\n' :: '\r' :: '\n' :: ((c :: v') ++ crlfL)))
        = ((crlfL ++ dispoPrefix) ++ namePat fname) ++
          ('\r' :: '\n' :: '\r' :: '\n' :: ((c :: v') ++ crlfL)) from by
      simp [List.append_assoc]]
    exact hasSub_append_left _ hhs
  rw [partField, if_pos hhs', hshape]
  rw [matchFieldAux_skip (namePat fname) (crlfL ++ dispoPrefix) (namePat fname) _
    (Nat.le_refl _) hnps]
  have hcons : 'n' :: ((("ame=\"".data ++ fname.data) ++ "\"".data) ++
      ('\r' :: '\n' :: '\r' :: '\n' :: ((c :: v') ++ crlfL)))
      = namePat fname ++ ('\r' :: '\n' :: '\r' :: '\n' :: ((c :: v') ++ crlfL)) := rfl
  rw [← hcons, matchFieldAux]
  rw [if_pos (by rw [hcons]; exact isPrefixOf_append_self _ _)]
  rw [show List.drop (namePat fname).length ('n' :: ((("ame=\"".data ++ fname.data) ++
        "\"".data) ++ ('\r' :: '\n' :: '\r' :: '\n' :: ((c :: v') ++ crlfL))))
      = '\r' :: '\n' :: '\r' :: '\n' :: ((c :: v') ++ crlfL) from by
    rw [hcons]
    exact List.drop_left _ _]
  rw [matchBlank_canonical c v' hc]
  dsimp only
  rw [captureLine_append_crlf (c :: v') hnoNL, jsTrim_fix hL' hR']

/-- Splitting `sep ++ p1 ++ sep ++ p2 ++ sep ++ tl` on `sep` yields the four
chunks, provided no stray occurrence of `sep` starts inside a chunk. -/
theorem splitOnSub_three (s0 : Char) (st : List Char) (p1 p2 tl : List Char)
    (h1 : hasSub2 (s0 :: st) p1 ((s0 :: st) ++ (p2 ++ ((s0 :: st) ++ tl))) = false)
    (h2 : hasSub2 (s0 :: st) p2 ((s0 :: st) ++ tl) = false)
    (h3 : hasSub2 (s0 :: st) tl [] = false) :
    splitOnSub (s0 :: st) ((s0 :: st) ++ (p1 ++ ((s0 :: st) ++ (p2 ++ ((s0 :: st) ++ tl)))))
      = [[], p1, p2, tl] := by
  rw [splitOnSub]
  rw [splitOnSubAux_hit s0 st [] _ _ (by simp only [List.length_append, List.length_cons]; omega)]
  rw [splitOnSubAux_skip (s0 :: st) p1 [] ((s0 :: st) ++ (p2 ++ ((s0 :: st) ++ tl))) _
    (by simp only [List.length_append, List.length_cons]; omega) h1]
  rw [splitOnSubAux_hit s0 st _ _ _ (by simp only [List.length_append, List.length_cons]; omega)]
  rw [splitOnSubAux_skip (s0 :: st) p2 [] ((s0 :: st) ++ tl) _
    (by simp only [List.length_append, List.length_cons]; omega) h2]
  rw [splitOnSubAux_hit s0 st _ _ _ (by simp only [List.length_append, List.length_cons]; omega)]
  rw [splitOnSubAux_last (s0 :: st) tl [] _ (by simp only [List.length_append, List.length_cons]; omega) h3]
  simp

theorem boundaryOf_canonical (b : List Char) (hb : b ≠ [])
    (hbB : hasSub2 ("boundary=".data) b [] = false) :
    boundaryOf ("multipart/form-data; boundary=".data ++ b) = some b := by
  have hsplit : splitOnSub ("boundary=".data) ("multipart/form-data; boundary=".data ++ b)
      = ["multipart/form-data; ".data, b] := by
    rw [show ("multipart/form-data; boundary=".data : List Char)
        = "multipart/form-data; ".data ++ "boundary=".data from rfl]
    rw [List.append_assoc]
    rw [splitOnSub]
    rw [splitOnSubAux_skip ("boundary=".data) ("multipart/form-data; ".data) []
      ("boundary=".data ++ b) _ (Nat.le_refl _)
      (hasSub2_of_head_ne 'b' ("oundary=".data) _ _ (by decide))]
    rw [show ("boundary=".data : List Char) = 'b' :: "oundary=".data from rfl]
    rw [splitOnSubAux_hit 'b' ("oundary=".data) _ _ _
      (by simp only [List.length_append, List.length_cons]; omega)]
    rw [splitOnSubAux_last ('b' :: "oundary=".data) b [] _
      (by simp only [List.length_append, List.length_cons]; omega) hbB]
    simp
  rw [boundaryOf, hsplit]
  have hbe : b.isEmpty = false := by
    cases b with
    | nil => exact absurd rfl hb
    | cons c r => rfl
  simp [hbe]

set_option maxRecDepth 10000 in
/-- C4 amended: for a canonical two-field `multipart/form-data` body whose
field values are non-empty single-line strings without surrounding whitespace
(`cleanValue`), and which do not collide with the framing (no boundary marker
inside a part, no foreign `name="..."` literal inside the other part's
content), the Normalizer's string-body branch extracts the boundary from the
content type and recovers both values exactly.  (Multi-line values are
truncated at the first line break — see `claim_C4_counterexample` — which is
what restricts this to single-line values.) -/
theorem claim_C4_amended (b v1 v2 : List Char) (hb : b ≠ [])
    (hbB : hasSub2 ("boundary=".data) b [] = false)
    (h1 : hasSub2 (sepOf b) (mkPartBody "job_title" v1)
        (sepOf b ++ (mkPartBody "job_description" v2 ++ (sepOf b ++ multipartCloser))) = false)
    (h2 : hasSub2 (sepOf b) (mkPartBody "job_description" v2)
        (sepOf b ++ multipartCloser) = false)
    (h3 : hasSub2 (sepOf b) multipartCloser [] = false)
    (hv1 : cleanValue v1 = true) (hv2 : cleanValue v2 = true)
    (hn1 : hasSub (namePat "job_description") (mkPartBody "job_title" v1) = false)
    (hn2 : hasSub (namePat "job_title") (mkPartBody "job_description" v2) = false) :
    boundaryOf ("multipart/form-data; boundary=".data ++ b) = some b ∧
    multipartStringExtract ("multipart/form-data; boundary=".data ++ b)
        (mkMultipartBody b v1 v2) = (some v1, some v2) := by
  have hbd := boundaryOf_canonical b hb hbB
  refine ⟨hbd, ?_⟩
  rw [multipartStringExtract, hbd]
  unfold multipartExtract
  dsimp only
  have hshape : mkMultipartBody b v1 v2
      = ('-' :: '-' :: b) ++ (mkPartBody "job_title" v1 ++ (('-' :: '-' :: b) ++
          (mkPartBody "job_description" v2 ++ (('-' :: '-' :: b) ++ multipartCloser)))) := by
    simp [mkMultipartBody, sepOf, List.append_assoc]
  rw [hshape]
  rw [splitOnSub_three '-' ('-' :: b) (mkPartBody "job_title" v1)
    (mkPartBody "job_description" v2) multipartCloser h1 h2 h3]
  have hp1 := partField_canonical "job_title" v1 hv1 (by decide) (by decide)
  have hp2 := partField_canonical "job_description" v2 hv2 (by decide) (by decide)
  have hempty1 : partField (namePat "job_title") [] = none := by decide
  have hempty2 : partField (namePat "job_description") [] = none := by decide
  have hclose1 : partField (namePat "job_title") multipartCloser = none := by decide
  have hclose2 : partField (namePat "job_description") multipartCloser = none := by decide
  have hmiss1 : partField (namePat "job_description") (mkPartBody "job_title" v1) = none := by
    rw [partField, if_neg (by rw [hn1]; simp)]
  have hmiss2 : partField (namePat "job_title") (mkPartBody "job_description" v2) = none := by
    rw [partField, if_neg (by rw [hn2]; simp)]
  have hf1 : foldParts (namePat "job_title")
      [[], mkPartBody "job_title" v1, mkPartBody "job_description" v2, multipartCloser]
      = some v1 := by
    simp [foldParts, List.foldl, hempty1, hp1, hmiss2, hclose1]
  have hf2 : foldParts (namePat "job_description")
      [[], mkPartBody "job_title" v1, mkPartBody "job_description" v2, multipartCloser]
      = some v2 := by
    simp [foldParts, List.foldl, hempty2, hp2, hmiss1, hclose2]
  rw [hf1, hf2]

set_option maxRecDepth 10000 in
theorem claim_C4_amended_witness :
    multipartStringExtract ("multipart/form-data; boundary=".data ++ "BND".data)
        (mkMultipartBody "BND".data "Engineer".data "Builds data pipelines".data)
      = (some "Engineer".data, some "Builds data pipelines".data) :=
  (claim_C4_amended "BND".data "Engineer".data "Builds data pipelines".data
    (by decide) (by decide) (by decide) (by decide) (by decide) (by decide) (by decide)
    (by decide) (by decide)).2

set_option maxRecDepth 10000 in
/-- C4 counterexample: the capture group of the field regex stops at the first
line break, so a field value that spans two lines is truncated to its first
line — the Normalizer does not extract multi-line values exactly. -/
theorem claim_C4_counterexample :
    multipartStringExtract ("multipart/form-data; boundary=B".data)
        (("--B\r\nContent-Disposition: form-data; name=\"job_title\"\r\n\r\nEngineer\r\n--B\r\nContent-Disposition: form-data; name=\"job_description\"\r\n\r\nline1\nline2\r\n--B--\r\n").data)
      = (some "Engineer".data, some "line1".data) ∧
    "line1".data ≠ "line1\nline2".data := by
  constructor <;> decide
